/-
Verification of the goresponse pagination/filter module
(tlabdotcom/go-paginate, files pagination.go / errors.go / single.go).

The Go code is shallowly embedded: Go `int` is `Int` (overflow is irrelevant
for the arithmetic performed here: clamping and small products), `*int` is
`Option Int`, `url.Values` is an association list `List (String × List String)`
whose keys are assumed distinct where a claim needs map semantics,
`map[string]interface{}` (DynamicFields) is an association list
`List (String × DynValue)` where `DynValue` is the sum of the value shapes the
code actually distinguishes, and fallible functions return `Except String`.
External collaborators (the uuid library, strconv, strings, the SHA-256 hash)
are modelled at their interface boundary; the hash is an arbitrary function
parameter, which is sound because every property proved about the generated
key only needs the hash to be a function.

The Go struct field `Type` is rendered `Type'` because `Type` is a Lean
keyword; everything else keeps the source names.
-/
import Mathlib

namespace GoResponse

/-! ### String helpers modelling the Go standard library at its boundary -/

/-- The rune set of Go `unicode.IsSpace` (Latin-1 plus Unicode White_Space),
used by `strings.TrimSpace`. -/
def isGoSpace (c : Char) : Bool :=
  let n := c.toNat
  n = 0x20 || (0x9 ≤ n && n ≤ 0xd) || n = 0x85 || n = 0xa0 ||
  n = 0x1680 || (0x2000 ≤ n && n ≤ 0x200a) || n = 0x2028 || n = 0x2029 ||
  n = 0x202f || n = 0x205f || n = 0x3000

/-- Trim a character list on both ends: model of `strings.TrimSpace`
on `String.data`. -/
def trimList (p : Char → Bool) (l : List Char) : List Char :=
  ((l.dropWhile p).reverse.dropWhile p).reverse

/-- Model of Go `strings.TrimSpace`. -/
def goTrimSpace (s : String) : String :=
  ⟨trimList isGoSpace s.data⟩

/-- Model of Go `strings.ToLower` (per-rune lowering; the strings compared
against in this module are ASCII). -/
def goToLower (s : String) : String :=
  ⟨s.data.map Char.toLower⟩

/-- Model of Go `strings.Join l sep`. -/
def joinWith (sep : String) : List String → String
  | [] => ""
  | [x] => x
  | x :: xs => x ++ sep ++ joinWith sep xs

/-- Model of Go `sort.Strings`: for the linear order on `String` every
comparison sort produces the same list, the unique sorted arrangement. -/
def sortStrings (l : List String) : List String :=
  l.insertionSort (· ≤ ·)

/-- Model of Go `strings.Split s ","` (auxiliary, structural on the
character list; `acc` is the current chunk reversed). -/
def splitCommaAux : List Char → List Char → List String
  | [], acc => [⟨acc.reverse⟩]
  | c :: rest, acc =>
    if c = ',' then ⟨acc.reverse⟩ :: splitCommaAux rest []
    else splitCommaAux rest (c :: acc)

/-- Model of Go `strings.Split s ","`. -/
def splitComma (s : String) : List String :=
  splitCommaAux s.data []

/-- Association-list lookup (Go map indexing; keys are unique in a Go map,
which the theorems assume through `Nodup` hypotheses). -/
def alookup {α β : Type} [DecidableEq α] (k : α) : List (α × β) → Option β
  | [] => none
  | p :: rest => if p.1 = k then some p.2 else alookup k rest

/-! ### strconv -/

/-- Digits of a decimal literal to their value; `none` when empty or when a
non-digit occurs (model of the syntax check of `strconv.ParseInt`). -/
def digitsToNat : List Char → Option Nat
  | [] => none
  | cs =>
    if cs.all Char.isDigit then
      some (cs.foldl (fun a c => a * 10 + (c.toNat - 48)) 0)
    else none

/-- Model of Go `strconv.ParseInt(s, 10, 64)` (also `strconv.Atoi` on a
64-bit platform): optional sign, one or more decimal digits, 64-bit range. -/
def goParseInt (s : String) : Except String Int :=
  let signed : Bool × List Char :=
    match s.data with
    | '-' :: rest => (true, rest)
    | '+' :: rest => (false, rest)
    | cs => (false, cs)
  match digitsToNat signed.2 with
  | none => .error ("strconv.ParseInt: parsing \x22" ++ s ++ "\x22: invalid syntax")
  | some n =>
    let v : Int := if signed.1 then -(n : Int) else (n : Int)
    if v < -(2 ^ 63) ∨ 2 ^ 63 - 1 < v then
      .error ("strconv.ParseInt: parsing \x22" ++ s ++ "\x22: value out of range")
    else .ok v

/-- Returns `true` exactly when `goParseInt` fails. -/
def parseIntErr (s : String) : Bool :=
  match goParseInt s with
  | .error _ => true
  | .ok _ => false

/-! ### UUIDs (github.com/google/uuid, modelled at the interface boundary) -/

/-- A parsed identifier, carried as its canonical (lower-case hyphenated)
string rendering, which is all this module observes of it. -/
structure UUID where
  canonical : String
deriving DecidableEq

/-- Model of `uuid.Nil`. -/
def UUID.nil : UUID := ⟨"00000000-0000-0000-0000-000000000000"⟩

/-- Model of `uuid.UUID.String()`. -/
def UUID.toString (u : UUID) : String := u.canonical

def isHexDigit (c : Char) : Bool :=
  c.isDigit || ('a' ≤ c && c ≤ 'f') || ('A' ≤ c && c ≤ 'F')

def uuidCharOk (i : Nat) (c : Char) : Bool :=
  if i = 8 ∨ i = 13 ∨ i = 18 ∨ i = 23 then c = '-' else isHexDigit c

/-- Model of `uuid.Parse` on the canonical 36-character hyphenated form
(strict syntax; the canonical output lowers the hex digits exactly as the
library's byte-level round trip does). -/
def uuidParse (s : String) : Option UUID :=
  let cs := s.data
  if cs.length = 36 && cs.enum.all fun p => uuidCharOk p.1 p.2 then
    some ⟨⟨cs.map Char.toLower⟩⟩
  else none

/-- pagination.go `parseUUID`: the empty string parses successfully to the
nil identifier; anything else goes to the library parser. -/
def parseUUID (s : String) : Option UUID :=
  if s = "" then some UUID.nil else uuidParse s

/-! ### Filter model -/

/-- The value shapes a dynamic field can hold: exactly the cases the
cache-key stringifier (`sortDynamicFields`) distinguishes. `ifaceList`
carries the elements of a `[]interface{}` already rendered by `%v`;
`str` reaches the stringifier's default `%v` branch. -/
inductive DynValue : Type
  | uuid (u : UUID)
  | str (s : String)
  | uuidList (l : List UUID)
  | strList (l : List String)
  | ifaceList (l : List String)
deriving DecidableEq

/-- The `FilterOptions` struct (pagination.go). Field `Type` is spelled `Type'`. -/
@[ext]
structure FilterOptions where
  Page : Int
  Limit : Int
  Offset : Option Int
  Search : String
  Dir : String
  SortBy : String
  StartDate : String
  EndDate : String
  Type' : String
  Status : String
  Categories : List String
  DynamicFields : List (String × DynValue)
deriving DecidableEq

/-- The query tags of the fixed attributes, in struct-field order
(`DynamicFields` carries no query tag and is skipped by name). -/
def fixedTags : List String :=
  ["page", "limit", "offset", "q", "sort", "sort_by", "start_date",
   "end_date", "type", "status", "categories"]

/-! ### Parsing (ParseURLValues and helpers) -/

/-- Raw multi-valued parameters (`url.Values`). -/
abbrev URLValues := List (String × List String)

/-- Model of `url.Values.Get`: first value of the key, `""` when absent or empty. -/
def getFirst (values : URLValues) (tag : String) : String :=
  match alookup tag values with
  | some (v :: _) => v
  | _ => ""

/-- One integer fixed attribute inside `handleKnownFields`: skipped when the
first value is empty, otherwise `strconv`-parsed; a parse failure is wrapped
as `error setting field <Name>: <err>` exactly as the Go code does. -/
def intFieldStep (values : URLValues) (tag name : String) (cur : Int) :
    Except String Int :=
  let v := getFirst values tag
  if v = "" then .ok cur
  else
    match goParseInt v with
    | .ok i => .ok i
    | .error e => .error ("error setting field " ++ name ++ ": " ++ e)

/-- The `Offset` (*int) attribute: a fresh cell is allocated and set through
the same numeric path. -/
def offsetFieldStep (values : URLValues) : Except String (Option Int) :=
  let v := getFirst values "offset"
  if v = "" then .ok none
  else
    match goParseInt v with
    | .ok i => .ok (some i)
    | .error e => .error ("error setting field Offset: " ++ e)

/-- Source `handleKnownFields`: walk the fixed attributes in struct order, setting
each from its first query value when non-empty. String fields assign
directly and cannot fail; `categories` splits on commas and trims each
element; the three integer-backed fields can fail. -/
def handleKnownFields (values : URLValues) : Except String FilterOptions :=
  match intFieldStep values "page" "Page" 0 with
  | .error e => .error e
  | .ok page =>
    match intFieldStep values "limit" "Limit" 0 with
    | .error e => .error e
    | .ok limit =>
      match offsetFieldStep values with
      | .error e => .error e
      | .ok offset =>
        .ok { Page := page, Limit := limit, Offset := offset,
              Search := getFirst values "q",
              Dir := getFirst values "sort",
              SortBy := getFirst values "sort_by",
              StartDate := getFirst values "start_date",
              EndDate := getFirst values "end_date",
              Type' := getFirst values "type",
              Status := getFirst values "status",
              Categories :=
                (let cv := getFirst values "categories"
                 if cv = "" then [] else (splitComma cv).map goTrimSpace),
              DynamicFields := [] }

/-- Source `handleDynamicUUIDValue`. -/
def handleDynamicUUIDValue (value : String) : Option UUID :=
  parseUUID value

/-- Source `handleDynamicUUIDSlice`: all values must parse, else failure. -/
def handleDynamicUUIDSlice : List String → Option (List UUID)
  | [] => some []
  | v :: rest =>
    match parseUUID v with
    | some u => (handleDynamicUUIDSlice rest).map (u :: ·)
    | none => none

/-- Source `handleDynamicField`. -/
def handleDynamicField (values : List String) : DynValue :=
  match values with
  | [v] =>
    match handleDynamicUUIDValue v with
    | some u => .uuid u
    | none => .str v
  | vs =>
    match handleDynamicUUIDSlice vs with
    | some us => .uuidList us
    | none => .strList vs

/-- The dynamic-field pass of `ParseURLValues`: every parameter not among
the fixed tags, with at least one value. -/
def dynamicFieldsOf (values : URLValues) : List (String × DynValue) :=
  values.filterMap fun p =>
    if p.1 ∉ fixedTags ∧ 0 < p.2.length then
      some (p.1, handleDynamicField p.2)
    else none

/-! ### Validation -/

/-- Source `GetMaxLimitFromEnv`: `strconv.Atoi` of the variable's value (`""` when
the variable is absent), defaulting to 100 on error or a value below 1. -/
def GetMaxLimitFromEnv (envVal : String) : Int :=
  match goParseInt envVal with
  | .error _ => 100
  | .ok n => if n < 1 then 100 else n

/-- The categories cleanup inside `Validate`: trim each entry, drop the ones
that trim to empty. -/
def cleanCategories (l : List String) : List String :=
  l.filterMap fun c =>
    if goTrimSpace c = "" then none else some (goTrimSpace c)

/-- The sort-direction switch inside `Validate`: lower-case comparison,
anything unrecognized defaults to `DESC`. -/
def normalizeDir (s : String) : String :=
  if goToLower s = "asc" then "ASC"
  else if goToLower s = "desc" then "DESC"
  else "DESC"

/-- Source `FilterOptions.Validate`, with the value of `MAX_LIMIT_PAGINATE`
(`""` when unset) as an explicit parameter in place of the environment
read. -/
def Validate (envVal : String) (f : FilterOptions) : FilterOptions :=
  let page := if f.Page < 1 then 1 else f.Page
  let maxLimit := GetMaxLimitFromEnv envVal
  let limit :=
    if f.Limit < 1 then 1 else if maxLimit < f.Limit then maxLimit else f.Limit
  let dir := normalizeDir f.Dir
  let offset :=
    match f.Offset with
    | none => some ((page - 1) * limit)
    | some x => some x
  { Page := page, Limit := limit, Offset := offset,
    Search := goTrimSpace f.Search,
    Dir := dir,
    SortBy := f.SortBy,
    StartDate := goTrimSpace f.StartDate,
    EndDate := goTrimSpace f.EndDate,
    Type' := goTrimSpace f.Type',
    Status := goTrimSpace f.Status,
    Categories :=
      if 0 < f.Categories.length then cleanCategories f.Categories
      else f.Categories,
    DynamicFields := f.DynamicFields }

/-- Source `ParseURLValues`: fixed fields first (an error discards everything),
then the dynamic fields, then `Validate`. -/
def ParseURLValues (envVal : String) (values : URLValues) :
    Except String FilterOptions :=
  match handleKnownFields values with
  | .error e => .error e
  | .ok f => .ok (Validate envVal { f with DynamicFields := dynamicFieldsOf values })

/-! ### Cache-key generation -/

/-- Source `handleNumericValue`: `%d` rendering, present unless it reads `"0"`. -/
def handleNumericValue (i : Int) : String × Bool :=
  let value := toString i
  (value, value ≠ "0")

/-- Source `handlePtrValue`: `%v` of the pointee, present unless it reads `""`
(an integer never does). -/
def handlePtrValue (x : Int) : String × Bool :=
  let value := toString x
  (value, value ≠ "")

/-- The string branch of `handleFieldValue`. -/
def handleStringValue (s : String) : String × Bool :=
  (s, s ≠ "")

/-- Source `handleSliceValue`: nil/empty slices are absent; otherwise the elements
(`%v` of a string is itself) are sorted and comma-joined. -/
def handleSliceValue : List String → String × Bool
  | [] => ("", false)
  | l => (joinWith "," (sortStrings l), true)

/-- The pointer dispatch of `handleFieldValue` for `Offset`: a nil pointer
is absent, otherwise `handlePtrValue`. -/
def handleOffsetValue : Option Int → String × Bool
  | none => ("", false)
  | some x => handlePtrValue x

/-- Source `formatCacheKeyField`. -/
def formatCacheKeyField (fieldName fieldValue : String) : String :=
  fieldName ++ ":" ++ fieldValue

/-- The segment a fixed attribute contributes: its `tag:value` when present,
nothing otherwise. -/
def seg (tag : String) (pair : String × Bool) : List String :=
  if pair.2 then [formatCacheKeyField tag pair.1] else []

/-- The fixed-attribute pass of `GenerateCacheKey`: the reflection loop of
the source unrolled over the fixed fields in struct order (`DynamicFields`
is skipped by name and carries no query tag). -/
def fixedSegments (f : FilterOptions) : List String :=
  seg "page" (handleNumericValue f.Page) ++
  seg "limit" (handleNumericValue f.Limit) ++
  seg "offset" (handleOffsetValue f.Offset) ++
  seg "q" (handleStringValue f.Search) ++
  seg "sort" (handleStringValue f.Dir) ++
  seg "sort_by" (handleStringValue f.SortBy) ++
  seg "start_date" (handleStringValue f.StartDate) ++
  seg "end_date" (handleStringValue f.EndDate) ++
  seg "type" (handleStringValue f.Type') ++
  seg "status" (handleStringValue f.Status) ++
  seg "categories" (handleSliceValue f.Categories)

/-- The type switch inside `sortDynamicFields`: the canonical string of one
dynamic value (list shapes sort their stringified elements first). -/
def dynValueStr : DynValue → String
  | .uuid u => u.toString
  | .uuidList l => joinWith "," (sortStrings (l.map UUID.toString))
  | .strList l => joinWith "," (sortStrings l)
  | .ifaceList l => joinWith "," (sortStrings l)
  | .str s => s

/-- Source `sortDynamicFields`: walk the keys in sorted order, keep
`key:value` for every value whose canonical string is non-empty. -/
def sortDynamicFields (fields : List (String × DynValue)) : List String :=
  (sortStrings (fields.map Prod.fst)).filterMap fun k =>
    match alookup k fields with
    | some v =>
      let value := dynValueStr v
      if value = "" then none else some (formatCacheKeyField k value)
    | none => none

/-- The string `GenerateCacheKey` feeds to the hash: fixed segments plus
(for a non-empty map) the dynamic segments, sorted as one set and
colon-joined. -/
def cacheKeyInput (f : FilterOptions) : String :=
  let sortedFields :=
    fixedSegments f ++
    (if 0 < f.DynamicFields.length then sortDynamicFields f.DynamicFields
     else [])
  joinWith ":" (sortStrings sortedFields)

/-- Source `GenerateCacheKey`, with the SHA-256 of the goencryption dependency as
an explicit function parameter. -/
def GenerateCacheKey (hash : String → String) (f : FilterOptions)
    (keyPref : String) : String :=
  keyPref ++ "list:" ++ hash (cacheKeyInput f)

/-! ### Pagination response and error response -/

/-- The `PaginatedResponse` struct with opaque payload type `α`. `TotalPage` in the
source is `int(math.Ceil(float64(totalData) / float64(filter.Limit)))`,
an IEEE-754 double computation that is not embedded here (see the C8
discussion); the field is stored as whatever that computation yields,
so the structure records it abstractly. -/
structure PaginatedResponse (α : Type) where
  TotalData : Int
  TotalPage : Int
  CurrentPage : Int
  PageSize : Int
  Data : α
  Filters : FilterOptions

/-- The `StandardErrorResponse` struct (errors.go): each accumulated entry is a
`{field, message}` pair. -/
structure StandardErrorResponse where
  Code : Int
  Message : String
  Errors : List (String × String)
  RequestID : String

/-- Source `ResetErrors`: replace the entries with a fresh empty slice. -/
def ResetErrors (ser : StandardErrorResponse) : StandardErrorResponse :=
  { ser with Errors := [] }

/-- Source `AddMessageError` (used by theorems only to witness that entries
accumulate, for context around reset). -/
def AddMessageError (ser : StandardErrorResponse) (field message : String) :
    StandardErrorResponse :=
  { ser with Errors := ser.Errors ++ [(field, message)] }

/-! ### Generic list lemmas -/

theorem dropWhile_dropWhile (p : Char → Bool) (l : List Char) :
    (l.dropWhile p).dropWhile p = l.dropWhile p := by
  induction l with
  | nil => rfl
  | cons a l ih =>
    by_cases h : p a <;> simp [List.dropWhile_cons, h, ih]

theorem head?_dropWhile (p : Char → Bool) (l : List Char) (a : Char)
    (h : (l.dropWhile p).head? = some a) : p a = false := by
  induction l with
  | nil => simp at h
  | cons b l ih =>
    rw [List.dropWhile_cons] at h
    by_cases hb : p b
    · rw [if_pos hb] at h
      exact ih h
    · rw [if_neg hb] at h
      simp only [List.head?_cons, Option.some.injEq] at h
      subst h
      simpa using hb

theorem dropWhile_eq_self (p : Char → Bool) (l : List Char)
    (h : ∀ a, l.head? = some a → p a = false) : l.dropWhile p = l := by
  cases l with
  | nil => rfl
  | cons b l =>
    have hb := h b rfl
    simp [List.dropWhile_cons, hb]

theorem exists_append_dropWhile (p : Char → Bool) (l : List Char) :
    ∃ t, l = t ++ l.dropWhile p := by
  induction l with
  | nil => exact ⟨[], rfl⟩
  | cons a l ih =>
    by_cases h : p a
    · obtain ⟨t, ht⟩ := ih
      refine ⟨a :: t, ?_⟩
      simp only [List.dropWhile_cons, h, if_true, List.cons_append,
        List.cons.injEq, true_and]
      exact ht
    · exact ⟨[], by simp [List.dropWhile_cons, h]⟩

theorem trimList_idem (p : Char → Bool) (l : List Char) :
    trimList p (trimList p l) = trimList p l := by
  have hA : ((l.dropWhile p).reverse.dropWhile p).dropWhile p
      = (l.dropWhile p).reverse.dropWhile p :=
    dropWhile_dropWhile p (l.dropWhile p).reverse
  have hB : (((l.dropWhile p).reverse.dropWhile p).reverse).dropWhile p
      = ((l.dropWhile p).reverse.dropWhile p).reverse := by
    apply dropWhile_eq_self
    intro a ha
    obtain ⟨t, ht⟩ := exists_append_dropWhile p (l.dropWhile p).reverse
    have hrev : l.dropWhile p
        = ((l.dropWhile p).reverse.dropWhile p).reverse ++ t.reverse := by
      calc l.dropWhile p = ((l.dropWhile p).reverse).reverse := by
            rw [List.reverse_reverse]
        _ = (t ++ (l.dropWhile p).reverse.dropWhile p).reverse := by rw [← ht]
        _ = ((l.dropWhile p).reverse.dropWhile p).reverse ++ t.reverse := by
            rw [List.reverse_append]
    have hhead : (l.dropWhile p).head? = some a := by
      rw [hrev]
      cases hc : ((l.dropWhile p).reverse.dropWhile p).reverse with
      | nil => rw [hc] at ha; simp at ha
      | cons c cs =>
        rw [hc] at ha
        simpa using ha
    exact head?_dropWhile p l a hhead
  show (((((l.dropWhile p).reverse.dropWhile p).reverse).dropWhile
      p).reverse.dropWhile p).reverse = _
  rw [hB, List.reverse_reverse, hA]
  rfl

theorem goTrimSpace_idem (s : String) :
    goTrimSpace (goTrimSpace s) = goTrimSpace s :=
  congrArg String.mk (trimList_idem isGoSpace s.data)

theorem goTrimSpace_data (l : List Char) :
    goTrimSpace ⟨l⟩ = ⟨trimList isGoSpace l⟩ := rfl

/-! ### Validate lemmas -/

theorem one_le_getMaxLimit (envVal : String) :
    1 ≤ GetMaxLimitFromEnv envVal := by
  unfold GetMaxLimitFromEnv
  cases goParseInt envVal with
  | error e => dsimp only; omega
  | ok n => dsimp only; split <;> omega

theorem normalizeDir_vals (s : String) :
    normalizeDir s = "ASC" ∨ normalizeDir s = "DESC" := by
  unfold normalizeDir
  split
  · exact .inl rfl
  · split
    · exact .inr rfl
    · exact .inr rfl

theorem normalizeDir_idem (s : String) :
    normalizeDir (normalizeDir s) = normalizeDir s := by
  rcases normalizeDir_vals s with h | h <;> rw [h] <;> decide

theorem cleanCategories_cons (c : String) (l : List String) :
    cleanCategories (c :: l)
      = if goTrimSpace c = "" then cleanCategories l
        else goTrimSpace c :: cleanCategories l := by
  unfold cleanCategories
  rw [List.filterMap_cons]
  by_cases h : goTrimSpace c = ""
  · rw [if_pos h, if_pos h]
  · rw [if_neg h, if_neg h]

theorem cleanCategories_idem (l : List String) :
    cleanCategories (cleanCategories l) = cleanCategories l := by
  induction l with
  | nil => rfl
  | cons c l ih =>
    rw [cleanCategories_cons]
    by_cases h : goTrimSpace c = ""
    · simp only [h, if_true, ih]
    · simp only [h, if_false]
      rw [cleanCategories_cons, goTrimSpace_idem, if_neg h, ih]

theorem validate_dynamicFields (envVal : String) (f : FilterOptions) :
    (Validate envVal f).DynamicFields = f.DynamicFields := rfl

/-! ### Claim C3: Validate is idempotent -/

/-- C3: for every FilterOptions f, with the externally configured maximum
limit (the value of `MAX_LIMIT_PAGINATE`, `""` when unset) held fixed
between the calls, applying Validate twice yields the same result as
applying it once. -/
theorem validate_idempotent (envVal : String) (f : FilterOptions) :
    Validate envVal (Validate envVal f) = Validate envVal f := by
  have hM := one_le_getMaxLimit envVal
  apply FilterOptions.ext
  · dsimp only [Validate]
    split_ifs <;> omega
  · dsimp only [Validate]
    split_ifs <;> omega
  · dsimp only [Validate]
    cases f.Offset <;> rfl
  · exact goTrimSpace_idem f.Search
  · exact normalizeDir_idem f.Dir
  · rfl
  · exact goTrimSpace_idem f.StartDate
  · exact goTrimSpace_idem f.EndDate
  · exact goTrimSpace_idem f.Type'
  · exact goTrimSpace_idem f.Status
  · dsimp only [Validate]
    by_cases h : 0 < f.Categories.length
    · rw [if_pos h]
      by_cases h2 : 0 < (cleanCategories f.Categories).length
      · rw [if_pos h2, cleanCategories_idem]
      · rw [if_neg h2]
    · rw [if_neg h, if_neg h]
  · rfl

/-! ### Claim C6: Validate clamps page and limit; max limit from env -/

/-- C6: Validate clamps page to at least 1 and limit into
`[1, maxLimit]`, where maxLimit comes from `MAX_LIMIT_PAGINATE` (its value
is the `envVal` parameter, `""` when the variable is absent) and defaults
to 100 when the variable is absent, non-numeric, or non-positive.
Validate never fails: it is a total function into `FilterOptions`, with no
error outcome, every input being coerced. -/
theorem validate_clamps (envVal : String) (f : FilterOptions) :
    1 ≤ (Validate envVal f).Page ∧
    1 ≤ (Validate envVal f).Limit ∧
    (Validate envVal f).Limit ≤ GetMaxLimitFromEnv envVal ∧
    (envVal = "" → GetMaxLimitFromEnv envVal = 100) ∧
    (parseIntErr envVal = true → GetMaxLimitFromEnv envVal = 100) ∧
    (∀ n : Int, goParseInt envVal = .ok n → n < 1 →
      GetMaxLimitFromEnv envVal = 100) := by
  have hM := one_le_getMaxLimit envVal
  refine ⟨?_, ?_, ?_, ?_, ?_, ?_⟩
  · show 1 ≤ (if f.Page < 1 then 1 else f.Page)
    split <;> omega
  · show 1 ≤ (if f.Limit < 1 then 1
      else if GetMaxLimitFromEnv envVal < f.Limit then GetMaxLimitFromEnv envVal
      else f.Limit)
    split_ifs <;> omega
  · show (if f.Limit < 1 then 1
      else if GetMaxLimitFromEnv envVal < f.Limit then GetMaxLimitFromEnv envVal
      else f.Limit) ≤ GetMaxLimitFromEnv envVal
    split_ifs <;> omega
  · intro h
    subst h
    rfl
  · intro h
    unfold parseIntErr at h
    unfold GetMaxLimitFromEnv
    cases hg : goParseInt envVal with
    | error e => rfl
    | ok n => rw [hg] at h; simp at h
  · intro n hg hn
    unfold GetMaxLimitFromEnv
    rw [hg]
    dsimp only
    rw [if_pos hn]

/-- A concrete unvalidated filter used by the C6 witness. -/
def demoClampFilter : FilterOptions :=
  { Page := 0, Limit := 999, Offset := none, Search := "", Dir := "",
    SortBy := "", StartDate := "", EndDate := "", Type' := "", Status := "",
    Categories := [], DynamicFields := [] }

/-- Witness for C6: at `MAX_LIMIT_PAGINATE = "0"` (numeric but
non-positive) the maximum is the default 100, at `""` (absent) as well,
and a page of 0 is clamped to at least 1. -/
theorem validate_clamps_witness :
    1 ≤ (Validate "0" demoClampFilter).Page ∧
    GetMaxLimitFromEnv "0" = 100 ∧ GetMaxLimitFromEnv "" = 100 :=
  ⟨(validate_clamps "0" demoClampFilter).1,
   (validate_clamps "0" demoClampFilter).2.2.2.2.2 0 rfl (by decide),
   (validate_clamps "" demoClampFilter).2.2.2.1 rfl⟩

/-! ### Claim C7: offset derivation -/

/-- C7: when the offset is unset Validate sets it to
`(page - 1) * limit` computed from the already-clamped page and limit;
an explicitly supplied offset is left unchanged. -/
theorem validate_offset_default (envVal : String) (f : FilterOptions) :
    (f.Offset = none →
      (Validate envVal f).Offset
        = some (((Validate envVal f).Page - 1) * (Validate envVal f).Limit)) ∧
    (∀ x : Int, f.Offset = some x → (Validate envVal f).Offset = some x) := by
  have hp : (Validate envVal f).Page = (if f.Page < 1 then 1 else f.Page) := rfl
  have hl : (Validate envVal f).Limit
      = (if f.Limit < 1 then 1
         else if GetMaxLimitFromEnv envVal < f.Limit then GetMaxLimitFromEnv envVal
         else f.Limit) := rfl
  have ho : (Validate envVal f).Offset
      = (match f.Offset with
         | none => some (((if f.Page < 1 then 1 else f.Page) - 1) *
             (if f.Limit < 1 then 1
              else if GetMaxLimitFromEnv envVal < f.Limit then
                GetMaxLimitFromEnv envVal
              else f.Limit))
         | some x => some x) := rfl
  constructor
  · intro h
    rw [ho, h, hp, hl]
  · intro x h
    rw [ho, h]

/-- A concrete filter (page 2, limit 10, offset unset) for the C7
witness. -/
def demoOffsetFilter : FilterOptions :=
  { Page := 2, Limit := 10, Offset := none, Search := "", Dir := "",
    SortBy := "", StartDate := "", EndDate := "", Type' := "", Status := "",
    Categories := [], DynamicFields := [] }

/-- Witness for C7: page 2, limit 10, offset unset gives offset 10. -/
theorem validate_offset_default_witness :
    (Validate "" demoOffsetFilter).Offset = some 10 := by
  have h := (validate_offset_default "" demoOffsetFilter).1 rfl
  exact h.trans (by decide)

/-! ### Claim C2: absent fixed attributes are omitted from the cache key -/

/-- A filter whose only "present-looking" attribute is an explicitly set
offset of 0; every other attribute is zero-valued/empty. -/
def zeroOffsetFilter : FilterOptions :=
  { Page := 0, Limit := 0, Offset := some 0, Search := "", Dir := "",
    SortBy := "", StartDate := "", EndDate := "", Type' := "", Status := "",
    Categories := [], DynamicFields := [] }

/-- C2 counterexample: the claim extends the zero-integer-is-absent rule to
the optional integer offset, but `handlePtrValue` renders the pointee with
`%v` and only drops the segment when that string is empty, which an integer
never is. With offset explicitly set to 0 the attribute contributes the
segment `offset:0`, and the entire string fed to the hash for
`zeroOffsetFilter` is exactly `"offset:0"`. -/
theorem cacheKey_zero_offset_included :
    seg "offset" (handleOffsetValue (some 0)) = ["offset:0"] ∧
    cacheKeyInput zeroOffsetFilter = "offset:0" := by
  constructor <;> decide

/-- A filter with every fixed attribute absent, used by the C2 witness. -/
def emptyFilter : FilterOptions :=
  { Page := 0, Limit := 0, Offset := none, Search := "", Dir := "",
    SortBy := "", StartDate := "", EndDate := "", Type' := "", Status := "",
    Categories := [], DynamicFields := [] }

/-- C2 (amended): every fixed attribute with an absent value (empty string,
zero integer, empty/nil collection) contributes no `name:value` segment to
the hashed string — for every attribute except the pointer-typed offset,
for which only a nil pointer is omitted (an explicitly supplied offset,
even 0, contributes its segment; see the counterexample). No identifier
fixed attribute exists on this struct, so the nil-identifier case is
vacuous. -/
theorem fixedSegments_absent_omitted (f : FilterOptions) :
    (f.Page = 0 → seg "page" (handleNumericValue f.Page) = []) ∧
    (f.Limit = 0 → seg "limit" (handleNumericValue f.Limit) = []) ∧
    (f.Offset = none → seg "offset" (handleOffsetValue f.Offset) = []) ∧
    (f.Search = "" → seg "q" (handleStringValue f.Search) = []) ∧
    (f.Dir = "" → seg "sort" (handleStringValue f.Dir) = []) ∧
    (f.SortBy = "" → seg "sort_by" (handleStringValue f.SortBy) = []) ∧
    (f.StartDate = "" → seg "start_date" (handleStringValue f.StartDate) = []) ∧
    (f.EndDate = "" → seg "end_date" (handleStringValue f.EndDate) = []) ∧
    (f.Type' = "" → seg "type" (handleStringValue f.Type') = []) ∧
    (f.Status = "" → seg "status" (handleStringValue f.Status) = []) ∧
    (f.Categories = [] → seg "categories" (handleSliceValue f.Categories) = []) := by
  refine ⟨?_, ?_, ?_, ?_, ?_, ?_, ?_, ?_, ?_, ?_, ?_⟩ <;> intro h <;>
    rw [h] <;> decide

/-- Witness for the amended C2 at the all-absent filter. -/
theorem fixedSegments_absent_omitted_witness :
    seg "page" (handleNumericValue emptyFilter.Page) = [] ∧
    seg "limit" (handleNumericValue emptyFilter.Limit) = [] ∧
    seg "offset" (handleOffsetValue emptyFilter.Offset) = [] ∧
    seg "q" (handleStringValue emptyFilter.Search) = [] ∧
    seg "categories" (handleSliceValue emptyFilter.Categories) = [] :=
  ⟨(fixedSegments_absent_omitted emptyFilter).1 rfl,
   (fixedSegments_absent_omitted emptyFilter).2.1 rfl,
   (fixedSegments_absent_omitted emptyFilter).2.2.1 rfl,
   (fixedSegments_absent_omitted emptyFilter).2.2.2.1 rfl,
   (fixedSegments_absent_omitted emptyFilter).2.2.2.2.2.2.2.2.2.2 rfl⟩

/-! ### Claim C4: coercion failures abort parsing -/

/-- The first value of `tag` is present (non-empty) and fails integer
coercion; the only coercible fixed attributes of this struct are the three
integer-backed ones (`page`, `limit`, `offset`), every other fixed
attribute being a string or string slice whose assignment cannot fail (and
no identifier-typed fixed attribute exists, so that case of the claim is
vacuous). -/
abbrev intFails (values : URLValues) (tag : String) : Prop :=
  getFirst values tag ≠ "" ∧ parseIntErr (getFirst values tag) = true

theorem intFieldStep_error_elim (values : URLValues) (tag name : String)
    (cur : Int) (e : String)
    (h : intFieldStep values tag name cur = .error e) :
    intFails values tag ∧
    ∃ rest, e = "error setting field " ++ name ++ ": " ++ rest := by
  simp only [intFieldStep] at h
  by_cases hv : getFirst values tag = ""
  · rw [if_pos hv] at h
    exact Except.noConfusion h
  · cases hg : goParseInt (getFirst values tag) with
    | ok i =>
      rw [if_neg hv, hg] at h
      exact Except.noConfusion h
    | error e2 =>
      rw [if_neg hv, hg] at h
      dsimp only at h
      simp only [Except.error.injEq] at h
      exact ⟨⟨hv, by unfold parseIntErr; rw [hg]⟩, ⟨e2, h.symm⟩⟩

theorem intFails_no_ok (values : URLValues) (tag name : String) (cur i : Int)
    (hf : intFails values tag)
    (h : intFieldStep values tag name cur = .ok i) : False := by
  obtain ⟨hv, hperr⟩ := hf
  simp only [intFieldStep] at h
  rw [if_neg hv] at h
  unfold parseIntErr at hperr
  cases hg : goParseInt (getFirst values tag) with
  | ok j =>
    rw [hg] at hperr
    simp at hperr
  | error e =>
    rw [hg] at h
    dsimp only at h
    exact Except.noConfusion h

theorem offsetFieldStep_error_elim (values : URLValues) (e : String)
    (h : offsetFieldStep values = .error e) :
    intFails values "offset" ∧
    ∃ rest, e = "error setting field Offset: " ++ rest := by
  simp only [offsetFieldStep] at h
  by_cases hv : getFirst values "offset" = ""
  · rw [if_pos hv] at h
    exact Except.noConfusion h
  · cases hg : goParseInt (getFirst values "offset") with
    | ok i =>
      rw [if_neg hv, hg] at h
      exact Except.noConfusion h
    | error e2 =>
      rw [if_neg hv, hg] at h
      dsimp only at h
      simp only [Except.error.injEq] at h
      exact ⟨⟨hv, by unfold parseIntErr; rw [hg]⟩, ⟨e2, h.symm⟩⟩

theorem offsetFails_no_ok (values : URLValues) (o : Option Int)
    (hf : intFails values "offset")
    (h : offsetFieldStep values = .ok o) : False := by
  obtain ⟨hv, hperr⟩ := hf
  simp only [offsetFieldStep] at h
  rw [if_neg hv] at h
  unfold parseIntErr at hperr
  cases hg : goParseInt (getFirst values "offset") with
  | ok j =>
    rw [hg] at hperr
    simp at hperr
  | error e =>
    rw [hg] at h
    dsimp only at h
    exact Except.noConfusion h

/-- C4: if coercing any fixed attribute's value fails — on this struct
that means a malformed base-10 integer for one of the integer-backed
attributes, there being no identifier-typed fixed attribute — then
ParseURLValues returns an error whose message names the offending
attribute (`error setting field <Name>: ...`), and no filter: the `Except`
result carries no `FilterOptions`, the partially populated filter being
discarded, exactly as the Go function returns `nil`. -/
theorem parseURLValues_int_error (envVal : String) (values : URLValues)
    (h : intFails values "page" ∨ intFails values "limit" ∨
      intFails values "offset") :
    ∃ name rest,
      ParseURLValues envVal values
        = .error ("error setting field " ++ name ++ ": " ++ rest) ∧
      ((name = "Page" ∧ intFails values "page") ∨
       (name = "Limit" ∧ intFails values "limit") ∨
       (name = "Offset" ∧ intFails values "offset")) := by
  unfold ParseURLValues handleKnownFields
  cases hp : intFieldStep values "page" "Page" 0 with
  | error e =>
    obtain ⟨hfail, rest, hrest⟩ := intFieldStep_error_elim _ _ _ _ _ hp
    subst hrest
    exact ⟨"Page", rest, rfl, .inl ⟨rfl, hfail⟩⟩
  | ok page =>
    cases hl : intFieldStep values "limit" "Limit" 0 with
    | error e =>
      obtain ⟨hfail, rest, hrest⟩ := intFieldStep_error_elim _ _ _ _ _ hl
      subst hrest
      exact ⟨"Limit", rest, rfl, .inr (.inl ⟨rfl, hfail⟩)⟩
    | ok limit =>
      cases ho : offsetFieldStep values with
      | error e =>
        obtain ⟨hfail, rest, hrest⟩ := offsetFieldStep_error_elim _ _ ho
        subst hrest
        exact ⟨"Offset", rest, rfl, .inr (.inr ⟨rfl, hfail⟩)⟩
      | ok off =>
        exfalso
        rcases h with h1 | h2 | h3
        · exact intFails_no_ok _ _ _ _ _ h1 hp
        · exact intFails_no_ok _ _ _ _ _ h2 hl
        · exact offsetFails_no_ok _ _ h3 ho

/-- Witness for C4: `page=abc` aborts parsing with a field-identifying
error and no filter. -/
theorem parseURLValues_int_error_witness :
    intFails [("page", ["abc"])] "page" ∧
    ∃ name rest,
      ParseURLValues "" [("page", ["abc"])]
        = .error ("error setting field " ++ name ++ ": " ++ rest) ∧
      ((name = "Page" ∧ intFails [("page", ["abc"])] "page") ∨
       (name = "Limit" ∧ intFails [("page", ["abc"])] "limit") ∨
       (name = "Offset" ∧ intFails [("page", ["abc"])] "offset")) :=
  ⟨by decide, parseURLValues_int_error "" [("page", ["abc"])] (.inl (by decide))⟩

/-! ### Claims C5 and C10: dynamic-field handling -/

theorem alookup_dynamicFieldsOf (values : URLValues) (p : String)
    (vs : List String) (hnd : (values.map Prod.fst).Nodup)
    (hmem : (p, vs) ∈ values) (hp : p ∉ fixedTags) (hne : vs ≠ []) :
    alookup p (dynamicFieldsOf values) = some (handleDynamicField vs) := by
  induction values with
  | nil => cases hmem
  | cons q rest ih =>
    rw [List.map_cons, List.nodup_cons] at hnd
    rcases List.mem_cons.mp hmem with heq | hmem2
    · subst heq
      unfold dynamicFieldsOf
      rw [List.filterMap_cons]
      have hcond : p ∉ fixedTags ∧ 0 < vs.length :=
        ⟨hp, List.length_pos.mpr hne⟩
      rw [if_pos hcond]
      dsimp only
      unfold alookup
      rw [if_pos rfl]
    · have hq : q.1 ≠ p := by
        intro hqp
        exact hnd.1 (hqp ▸ List.mem_map_of_mem Prod.fst hmem2)
      unfold dynamicFieldsOf at ih ⊢
      rw [List.filterMap_cons]
      by_cases hcond : q.1 ∉ fixedTags ∧ 0 < q.2.length
      · rw [if_pos hcond]
        dsimp only
        unfold alookup
        rw [if_neg hq]
        exact ih hnd.2 hmem2
      · rw [if_neg hcond]
        dsimp only
        exact ih hnd.2 hmem2

/-- C5: a dynamic (non-fixed) parameter with exactly one value is stored
as the parsed identifier when identifier parsing succeeds and as the raw
string otherwise; with multiple values it is stored as the ordered
sequence of parsed identifiers when all parse and as the raw ordered
sequence of strings otherwise; and dynamic-field handling never causes the
call to fail (an error arises exactly from the fixed-field pass). -/
theorem parseURLValues_dynamic :
    (∀ (envVal : String) (values : URLValues) (e : String),
      ParseURLValues envVal values = .error e ↔
        handleKnownFields values = .error e) ∧
    (∀ (envVal : String) (values : URLValues) (p : String)
      (vs : List String) (f : FilterOptions),
      (values.map Prod.fst).Nodup → (p, vs) ∈ values → p ∉ fixedTags →
      vs ≠ [] → ParseURLValues envVal values = .ok f →
      alookup p f.DynamicFields = some (handleDynamicField vs) ∧
      (∀ v, vs = [v] →
        ((∃ u, parseUUID v = some u ∧ handleDynamicField vs = .uuid u) ∨
         (parseUUID v = none ∧ handleDynamicField vs = .str v))) ∧
      (2 ≤ vs.length →
        ((∃ us, handleDynamicUUIDSlice vs = some us ∧
            handleDynamicField vs = .uuidList us) ∨
         (handleDynamicUUIDSlice vs = none ∧
            handleDynamicField vs = .strList vs)))) := by
  constructor
  · intro envVal values e
    unfold ParseURLValues
    cases hk : handleKnownFields values with
    | error e2 => simp
    | ok g => simp
  · intro envVal values p vs f hnd hmem hp hne hok
    unfold ParseURLValues at hok
    cases hk : handleKnownFields values with
    | error e =>
      rw [hk] at hok
      exact Except.noConfusion hok
    | ok g =>
      rw [hk] at hok
      dsimp only at hok
      simp only [Except.ok.injEq] at hok
      have hdyn : f.DynamicFields = dynamicFieldsOf values := by
        rw [← hok, validate_dynamicFields]
      refine ⟨?_, ?_, ?_⟩
      · rw [hdyn]
        exact alookup_dynamicFieldsOf values p vs hnd hmem hp hne
      · intro v hv
        subst hv
        cases hu : parseUUID v with
        | some u =>
          exact .inl ⟨u, rfl, by
            simp [handleDynamicField, handleDynamicUUIDValue, hu]⟩
        | none =>
          exact .inr ⟨rfl, by
            simp [handleDynamicField, handleDynamicUUIDValue, hu]⟩
      · intro hlen
        match vs, hlen with
        | v₁ :: v₂ :: rest, _ =>
          cases hs : handleDynamicUUIDSlice (v₁ :: v₂ :: rest) with
          | some us =>
            exact .inl ⟨us, rfl, by simp [handleDynamicField, hs]⟩
          | none =>
            exact .inr ⟨rfl, by simp [handleDynamicField, hs]⟩

/-- The canonical lowercase UUID literal used by the C5 witness. -/
def demoUUIDStr : String := "123e4567-e89b-12d3-a456-426614174000"

/-- Raw parameters `{page: "1", user_id: "<valid-uuid>"}` for the C5
witness. -/
def demoDynValues : URLValues := [("page", ["1"]), ("user_id", [demoUUIDStr])]

/-- The filter `ParseURLValues` produces from `demoDynValues`. -/
def demoDynFilter : FilterOptions :=
  { Page := 1, Limit := 1, Offset := some 0, Search := "", Dir := "DESC",
    SortBy := "", StartDate := "", EndDate := "", Type' := "", Status := "",
    Categories := [],
    DynamicFields := [("user_id", .uuid ⟨demoUUIDStr⟩)] }

/-- Witness for C5: parsing `{page: "1", user_id: "<valid-uuid>"}` stores
the parsed identifier (not the raw string) under `user_id`. -/
theorem parseURLValues_dynamic_witness :
    ParseURLValues "" demoDynValues = .ok demoDynFilter ∧
    alookup "user_id" demoDynFilter.DynamicFields
      = some (.uuid ⟨demoUUIDStr⟩) := by
  constructor
  · rfl
  · exact ((parseURLValues_dynamic.2 "" demoDynValues "user_id"
      [demoUUIDStr] demoDynFilter (by decide) (by decide) (by decide)
      (by decide) rfl).1).trans (by decide)

theorem handleDynamicUUIDSlice_all (vs : List String)
    (h : ∀ v ∈ vs, (parseUUID v).isSome) :
    handleDynamicUUIDSlice vs
      = some (vs.map fun v => (parseUUID v).getD UUID.nil) := by
  induction vs with
  | nil => rfl
  | cons v rest ih =>
    have hv := h v (by simp)
    obtain ⟨u, hu⟩ := Option.isSome_iff_exists.mp hv
    unfold handleDynamicUUIDSlice
    rw [hu]
    dsimp only
    rw [ih fun w hw => h w (by simp [hw])]
    simp [hu]

/-- C10: a dynamic parameter with exactly one value `""` is stored as the
nil identifier (not the raw empty string), because pagination.go's
`parseUUID` treats `""` as a successful parse yielding `uuid.Nil`; and an
empty-string element never makes a multi-valued dynamic parameter fall
back to raw strings: when every element is `""` or identifier-syntax, the
stored value is the identifier list. -/
theorem parseURLValues_empty_string_dynamic :
    parseUUID "" = some UUID.nil ∧
    (∀ (envVal : String) (values : URLValues) (p : String)
      (f : FilterOptions),
      (values.map Prod.fst).Nodup → (p, [""]) ∈ values → p ∉ fixedTags →
      ParseURLValues envVal values = .ok f →
      alookup p f.DynamicFields = some (.uuid UUID.nil)) ∧
    (∀ vs : List String, 2 ≤ vs.length →
      (∀ v ∈ vs, v = "" ∨ (parseUUID v).isSome) →
      handleDynamicField vs
        = .uuidList (vs.map fun v => (parseUUID v).getD UUID.nil)) := by
  refine ⟨rfl, ?_, ?_⟩
  · intro envVal values p f hnd hmem hp hok
    have h := (parseURLValues_dynamic.2 envVal values p [""] f hnd hmem hp
      (by simp) hok).1
    exact h.trans (by decide)
  · intro vs hlen hall
    have hsome : ∀ v ∈ vs, (parseUUID v).isSome := by
      intro v hv
      rcases hall v hv with h | h
      · subst h
        rfl
      · exact h
    match vs, hlen with
    | v₁ :: v₂ :: rest, _ =>
      have hs := handleDynamicUUIDSlice_all (v₁ :: v₂ :: rest)
        fun w hw => hsome w hw
      simp [handleDynamicField, hs]

/-- Raw parameters with a dynamic key whose single value is `""`, for the
C10 witness. -/
def demoEmptyDynValues : URLValues := [("audio_id", [""])]

/-- The filter `ParseURLValues` produces from `demoEmptyDynValues`. -/
def demoEmptyDynFilter : FilterOptions :=
  { Page := 1, Limit := 1, Offset := some 0, Search := "", Dir := "DESC",
    SortBy := "", StartDate := "", EndDate := "", Type' := "", Status := "",
    Categories := [],
    DynamicFields := [("audio_id", .uuid UUID.nil)] }

/-- Witness for C10: `audio_id=""` is stored as the nil identifier. -/
theorem parseURLValues_empty_string_dynamic_witness :
    ParseURLValues "" demoEmptyDynValues = .ok demoEmptyDynFilter ∧
    alookup "audio_id" demoEmptyDynFilter.DynamicFields
      = some (.uuid UUID.nil) :=
  ⟨rfl,
   parseURLValues_empty_string_dynamic.2.1 "" demoEmptyDynValues "audio_id"
     demoEmptyDynFilter (by decide) (by decide) (by decide) rfl⟩

/-! ### Claim C1: the cache key is order-independent -/

theorem sortStrings_perm_eq {l₁ l₂ : List String} (h : l₁.Perm l₂) :
    sortStrings l₁ = sortStrings l₂ :=
  List.eq_of_perm_of_sorted
    ((List.perm_insertionSort (· ≤ · : String → String → Prop) l₁).trans
      (h.trans
        (List.perm_insertionSort (· ≤ · : String → String → Prop) l₂).symm))
    (List.sorted_insertionSort (· ≤ · : String → String → Prop) l₁)
    (List.sorted_insertionSort (· ≤ · : String → String → Prop) l₂)

/-- Value equality of dynamic-field values up to permutation of list
elements (the claim's notion of value-equal). -/
inductive DynValue.equiv : DynValue → DynValue → Prop
  | uuid (u : UUID) : DynValue.equiv (.uuid u) (.uuid u)
  | str (s : String) : DynValue.equiv (.str s) (.str s)
  | uuidList {l m : List UUID} (h : l.Perm m) :
      DynValue.equiv (.uuidList l) (.uuidList m)
  | strList {l m : List String} (h : l.Perm m) :
      DynValue.equiv (.strList l) (.strList m)
  | ifaceList {l m : List String} (h : l.Perm m) :
      DynValue.equiv (.ifaceList l) (.ifaceList m)

theorem dynValueStr_equiv {v w : DynValue} (h : DynValue.equiv v w) :
    dynValueStr v = dynValueStr w := by
  cases h with
  | uuid u => rfl
  | str s => rfl
  | uuidList h =>
    simp only [dynValueStr]
    rw [sortStrings_perm_eq (h.map UUID.toString)]
  | strList h =>
    simp only [dynValueStr]
    rw [sortStrings_perm_eq h]
  | ifaceList h =>
    simp only [dynValueStr]
    rw [sortStrings_perm_eq h]

/-- Entry equivalence for the dynamic-field map: same key, equivalent
value. -/
def pairEquiv (p q : String × DynValue) : Prop :=
  p.1 = q.1 ∧ DynValue.equiv p.2 q.2

/-- The dynamic-field maps are value-equal: one is a permutation of a list
pointwise `pairEquiv` to the other (insertion order irrelevant, list-valued
entries up to permutation). -/
def DynMapEquiv (m₁ m₂ : List (String × DynValue)) : Prop :=
  ∃ m', m₁.Perm m' ∧ List.Forall₂ pairEquiv m' m₂

/-- Entries canonicalized to their cache-key string. -/
def canonFields (m : List (String × DynValue)) : List (String × String) :=
  m.map fun p => (p.1, dynValueStr p.2)

theorem canonFields_keys (m : List (String × DynValue)) :
    (canonFields m).map Prod.fst = m.map Prod.fst := by
  unfold canonFields
  rw [List.map_map]
  rfl

theorem alookup_map_snd {α β γ : Type} [DecidableEq α] (g : β → γ) (k : α)
    (m : List (α × β)) :
    alookup k (m.map fun p => (p.1, g p.2)) = (alookup k m).map g := by
  induction m with
  | nil => rfl
  | cons p rest ih =>
    simp only [List.map_cons, alookup]
    by_cases h : p.1 = k
    · rw [if_pos h, if_pos h]
      rfl
    · rw [if_neg h, if_neg h]
      exact ih

theorem alookup_perm_eq {α β : Type} [DecidableEq α]
    {l₁ l₂ : List (α × β)} (h : l₁.Perm l₂) (k : α) :
    (l₁.map Prod.fst).Nodup → alookup k l₁ = alookup k l₂ := by
  induction h with
  | nil => intro _; rfl
  | cons x h ih =>
    intro hnd
    rw [List.map_cons, List.nodup_cons] at hnd
    simp only [alookup]
    by_cases hx : x.1 = k
    · rw [if_pos hx, if_pos hx]
    · rw [if_neg hx, if_neg hx]
      exact ih hnd.2
  | swap x y l =>
    intro hnd
    rw [List.map_cons, List.map_cons, List.nodup_cons] at hnd
    have hxy : y.1 ≠ x.1 := by
      intro he
      exact hnd.1 (he ▸ List.mem_cons_self x.1 (l.map Prod.fst))
    simp only [alookup]
    by_cases hy : y.1 = k <;> by_cases hx : x.1 = k
    · exact absurd (hy.trans hx.symm) hxy
    · rw [if_pos hy, if_neg hx, if_pos hy]
    · rw [if_neg hy, if_pos hx, if_pos hx]
    · rw [if_neg hy, if_neg hx, if_neg hy, if_neg hx]
  | trans h₁ h₂ ih₁ ih₂ =>
    intro hnd
    exact (ih₁ hnd).trans (ih₂ (((h₁.map Prod.fst).nodup_iff).mp hnd))

theorem forall₂_keys_eq {m' m₂ : List (String × DynValue)}
    (h : List.Forall₂ pairEquiv m' m₂) :
    m'.map Prod.fst = m₂.map Prod.fst := by
  induction h with
  | nil => rfl
  | cons hr _ ih =>
    simp only [List.map_cons]
    rw [hr.1, ih]

theorem forall₂_canon_eq {m' m₂ : List (String × DynValue)}
    (h : List.Forall₂ pairEquiv m' m₂) :
    canonFields m' = canonFields m₂ := by
  induction h with
  | nil => rfl
  | cons hr _ ih =>
    unfold canonFields at ih ⊢
    simp only [List.map_cons]
    rw [hr.1, dynValueStr_equiv hr.2, ih]

/-- Lemma: `sortDynamicFields` factors through the canonicalized entries. -/
theorem sortDynamicFields_canon (m : List (String × DynValue)) :
    sortDynamicFields m
      = (sortStrings (m.map Prod.fst)).filterMap fun k =>
          match alookup k (canonFields m) with
          | some value =>
            if value = "" then none else some (formatCacheKeyField k value)
          | none => none := by
  unfold sortDynamicFields
  congr 1
  funext k
  unfold canonFields
  rw [alookup_map_snd]
  cases alookup k m <;> rfl

theorem sortDynamicFields_congr {m₁ m₂ : List (String × DynValue)}
    (h : DynMapEquiv m₁ m₂) (hnd : (m₁.map Prod.fst).Nodup) :
    sortDynamicFields m₁ = sortDynamicFields m₂ := by
  obtain ⟨m', hp, hf⟩ := h
  have hkeys : (m₁.map Prod.fst).Perm (m₂.map Prod.fst) :=
    forall₂_keys_eq hf ▸ hp.map Prod.fst
  have hcanon : (canonFields m₁).Perm (canonFields m₂) := by
    have h2 : (canonFields m₁).Perm (canonFields m') := by
      unfold canonFields
      exact hp.map _
    rw [forall₂_canon_eq hf] at h2
    exact h2
  have hndc : ((canonFields m₁).map Prod.fst).Nodup := by
    rw [canonFields_keys]
    exact hnd
  rw [sortDynamicFields_canon m₁, sortDynamicFields_canon m₂,
    sortStrings_perm_eq hkeys]
  congr 1
  funext k
  rw [alookup_perm_eq hcanon k hndc]

theorem handleSliceValue_congr {l₁ l₂ : List String} (h : l₁.Perm l₂) :
    handleSliceValue l₁ = handleSliceValue l₂ := by
  cases l₁ with
  | nil =>
    cases l₂ with
    | nil => rfl
    | cons b u =>
      have := h.length_eq
      simp at this
  | cons a t =>
    cases l₂ with
    | nil =>
      have := h.length_eq
      simp at this
    | cons b u =>
      show (joinWith "," (sortStrings (a :: t)), true)
        = (joinWith "," (sortStrings (b :: u)), true)
      rw [sortStrings_perm_eq h]

/-- Value equality of two filters as the claim states it: equal fixed
attributes, categories up to permutation, dynamic-field maps up to entry
order and up to permutation inside list-valued entries. -/
def FilterEquiv (f₁ f₂ : FilterOptions) : Prop :=
  f₁.Page = f₂.Page ∧ f₁.Limit = f₂.Limit ∧ f₁.Offset = f₂.Offset ∧
  f₁.Search = f₂.Search ∧ f₁.Dir = f₂.Dir ∧ f₁.SortBy = f₂.SortBy ∧
  f₁.StartDate = f₂.StartDate ∧ f₁.EndDate = f₂.EndDate ∧
  f₁.Type' = f₂.Type' ∧ f₁.Status = f₂.Status ∧
  f₁.Categories.Perm f₂.Categories ∧
  DynMapEquiv f₁.DynamicFields f₂.DynamicFields

theorem fixedSegments_congr {f₁ f₂ : FilterOptions} (h : FilterEquiv f₁ f₂) :
    fixedSegments f₁ = fixedSegments f₂ := by
  obtain ⟨h1, h2, h3, h4, h5, h6, h7, h8, h9, h10, hcat, -⟩ := h
  unfold fixedSegments
  rw [h1, h2, h3, h4, h5, h6, h7, h8, h9, h10, handleSliceValue_congr hcat]

/-- C1: GenerateCacheKey returns the same string on every pair of
value-equal filters — equal up to the insertion order of the
DynamicFields entries (their keys being distinct, as in a Go map), up to
permutation of the Categories elements, and up to permutation of the
elements of any list-valued dynamic field — for every prefix and every
hash function; in particular (taking `f₁ = f₂`, where the hypotheses hold
trivially) two invocations on the same filter and prefix return the same
string. -/
theorem generateCacheKey_deterministic (hash : String → String)
    (f₁ f₂ : FilterOptions) (keyPref : String)
    (hnd : (f₁.DynamicFields.map Prod.fst).Nodup)
    (heq : FilterEquiv f₁ f₂) :
    GenerateCacheKey hash f₁ keyPref = GenerateCacheKey hash f₂ keyPref := by
  have hfix := fixedSegments_congr heq
  have hdyn := heq.2.2.2.2.2.2.2.2.2.2.2
  have hlen : f₁.DynamicFields.length = f₂.DynamicFields.length := by
    obtain ⟨m', hp, hf⟩ := hdyn
    exact hp.length_eq.trans hf.length_eq
  unfold GenerateCacheKey cacheKeyInput
  dsimp only
  rw [hfix, hlen, sortDynamicFields_congr hdyn hnd]

/-- First demo filter for the C1 witness: categories and dynamic fields in
one order. -/
def demoKeyFilterA : FilterOptions :=
  { Page := 2, Limit := 10, Offset := none, Search := "x", Dir := "ASC",
    SortBy := "", StartDate := "", EndDate := "", Type' := "", Status := "",
    Categories := ["b", "a"],
    DynamicFields := [("x", .str "1"), ("y", .strList ["q", "p"])] }

/-- Second demo filter: same values, entries and list elements permuted. -/
def demoKeyFilterB : FilterOptions :=
  { Page := 2, Limit := 10, Offset := none, Search := "x", Dir := "ASC",
    SortBy := "", StartDate := "", EndDate := "", Type' := "", Status := "",
    Categories := ["a", "b"],
    DynamicFields := [("y", .strList ["p", "q"]), ("x", .str "1")] }

/-- Witness for C1: the two permuted demo filters get the same key. -/
theorem generateCacheKey_deterministic_witness :
    GenerateCacheKey (fun s => s) demoKeyFilterA "k:"
      = GenerateCacheKey (fun s => s) demoKeyFilterB "k:" :=
  generateCacheKey_deterministic (fun s => s) demoKeyFilterA demoKeyFilterB
    "k:" (by decide)
    ⟨rfl, rfl, rfl, rfl, rfl, rfl, rfl, rfl, rfl, rfl, by decide,
     ⟨[("y", .strList ["q", "p"]), ("x", .str "1")], by decide,
      .cons ⟨rfl, .strList (by decide)⟩ (.cons ⟨rfl, .str "1"⟩ .nil)⟩⟩

/-! ### Claim C9: ResetErrors -/

/-- C9: ResetErrors clears the accumulated `{field, message}` entries to
the empty list and leaves the status code (and every other field)
unchanged. -/
theorem resetErrors_clears (ser : StandardErrorResponse) :
    (ResetErrors ser).Errors = [] ∧ (ResetErrors ser).Code = ser.Code ∧
    (ResetErrors ser).Message = ser.Message ∧
    (ResetErrors ser).RequestID = ser.RequestID :=
  ⟨rfl, rfl, rfl, rfl⟩

end GoResponse
